import Mathlib

/-!
Shallow embedding of the MetabaseNet core utilities and storage engine,
for checking the natural-language specification against the code.

Conventions used throughout:
* C byte strings (`const char*` / `std::string`) are modelled as `List Nat`
  of character codes; the NUL terminator is modelled by the end of the list.
* Byte buffers (`std::vector<unsigned char>` / `bytes`) are `List Nat`
  with elements below 256.
* Machine integers are `Nat`, reduced by `% 2 ^ w` exactly where the C
  arithmetic can overflow its fixed width.
* External collaborators (file system, file locks, module constructors)
  are modelled as boolean oracles recorded in environment structures.
-/

namespace Mtbase

/-- Embeds `mtbase::CharToHex` (src/src/mtbase/util.h): digit value of a hex
character, `-1` for any other character. The `int` return type is `Int`. -/
def CharToHex (c : Nat) : Int :=
  if 48 ≤ c ∧ c ≤ 57 then (c : Int) - 48
  else if 97 ≤ c ∧ c ≤ 102 then (c : Int) - 97 + 10
  else if 65 ≤ c ∧ c ≤ 70 then (c : Int) - 65 + 10
  else -1

/-- Embeds C `tolower` on ASCII character codes, as used by the hex helpers. -/
def tolowerC (c : Nat) : Nat :=
  if 65 ≤ c ∧ c ≤ 90 then c + 32 else c

/-- A character code is a hex digit exactly when `CharToHex` does not
return `-1`. -/
def isHexDigit (c : Nat) : Bool :=
  decide (0 ≤ CharToHex c)

/-- Embeds the `while (*psz)` loop of `mtbase::ParseHexString`
(src/src/mtbase/util.h): read two characters per iteration, break when
either read is not a hex digit (reading past a 1-character tail models the
C loop reading the NUL terminator, whose `CharToHex` is `-1`), push
`(h << 4) | l` otherwise. -/
def parseHexLoop : List Nat → List Nat
  | [] => []
  | [_] => []
  | c1 :: c2 :: rest =>
    let h := CharToHex c1
    let l := CharToHex c2
    if h < 0 ∨ l < 0 then []
    else ((h.toNat <<< 4) ||| l.toNat) :: parseHexLoop rest

/-- Does a character string start with the `0x` / `0X` marker the hex
helpers recognise? The C sources test `psz[0] == '0' && tolower(psz[1]) == 'x'`
(reading the NUL terminator when the string is shorter than 2). -/
def hasHexPrefix (s : List Nat) : Bool :=
  match s with
  | c0 :: c1 :: _ => decide (c0 = 48 ∧ tolowerC c1 = 120)
  | _ => false

/-- Embeds `mtbase::ParseHexString` (src/src/mtbase/util.h): skip a leading
`0x` / `0X` (`psz[0] == '0' && tolower(psz[1]) == 'x'`), then run the
decoding loop. Character codes: `'0'` = 48, `'x'` = 120. -/
def ParseHexString (s : List Nat) : List Nat :=
  if hasHexPrefix s then parseHexLoop (s.drop 2) else parseHexLoop s

/-- A sequence of hex character pairs, flattened to a character string. -/
def hexPairsFlat (ps : List (Nat × Nat)) : List Nat :=
  ps.flatMap (fun p => [p.1, p.2])

/-- The bytes encoded by a sequence of hex character pairs. -/
def hexPairsBytes (ps : List (Nat × Nat)) : List Nat :=
  ps.map (fun p => (CharToHex p.1).toNat * 16 + (CharToHex p.2).toNat)

/-- The character table `"0123456789abcdef"` of `mtbase::ToHexString`. -/
def hexc : List Nat :=
  [48, 49, 50, 51, 52, 53, 54, 55, 56, 57, 97, 98, 99, 100, 101, 102]

/-- Embeds `mtbase::ToHexString` (src/src/mtbase/util.h): empty input gives
the empty string, otherwise `"0x"` followed by `hexc[c >> 4] hexc[c & 15]`
per byte. The source emits the same characters through a 64-byte staging
buffer, which does not change the produced string. -/
def ToHexString (v : List Nat) : List Nat :=
  if v = [] then []
  else 48 :: 120 :: v.flatMap (fun c => [hexc.getD (c >>> 4) 0, hexc.getD (c &&& 15) 0])

/-- Embeds the character class of `mtbase::isHexNumeric`
(src/src/mtbase/util.h): that function regex-searches for any character
outside `[0-9a-fA-Fx-xX-X]`, so the accepted characters are hex digits
plus `'x'` (120) and `'X'` (88), anywhere in the string. -/
def isHexNumericChar (c : Nat) : Bool :=
  (48 ≤ c && c ≤ 57) || (97 ≤ c && c ≤ 102) || (65 ≤ c && c ≤ 70) || c = 120 || c = 88

/-- Embeds `mtbase::isHexNumeric`: non-empty and no character outside the
class above. -/
def isHexNumeric (s : List Nat) : Bool :=
  !s.isEmpty && s.all isHexNumericChar

/-- Embeds the index loop of `mtbase::ReverseHexNumericString`
(src/src/mtbase/util.h) as structural recursion over the digit characters
read from the right (the loop walks `e` from the last index down by two,
writing pairs `strIn[e-1] strIn[e]` forward, and writes `'0' strIn[2]`
when a single leftmost digit remains). The input of this helper is the
reversed list of the characters after the `0x` prefix. -/
def revPairsAux : List Nat → List Nat
  | [] => []
  | [d] => [48, d]
  | dlow :: dhigh :: rest => dhigh :: dlow :: revPairsAux rest

/-- Embeds `mtbase::ReverseHexNumericString` (src/src/mtbase/util.h):
empty result unless `isHexNumeric` holds and the string starts with
`'0'` then `tolower`-`'x'`; otherwise `"0x"` followed by the byte-reversed
digit characters. -/
def ReverseHexNumericString (s : List Nat) : List Nat :=
  if !isHexNumeric s then []
  else if hasHexPrefix s then 48 :: 120 :: revPairsAux ((s.drop 2).reverse)
  else []

/-- Specification-side description of the reversal: chunk a digit string
into byte pairs from the left. -/
def chunkPairs : List Nat → List (List Nat)
  | [] => []
  | [d] => [[d]]
  | d1 :: d2 :: rest => [d1, d2] :: chunkPairs rest

/-- Specification-side description of the reversal: the byte-reversed
rendering of an (even-length) digit string is its byte pairs in reverse
order. -/
def byteReverseHexDigits (ds : List Nat) : List Nat :=
  ((chunkPairs ds).reverse).flatten

/-- Embeds `mtbase::BSwap16` (src/src/mtbase/util.h). The C return type is
`uint32`; for a 16-bit argument no intermediate exceeds 32 bits, so no
reduction is needed. -/
def BSwap16 (n : Nat) : Nat :=
  ((n &&& 0x00FF) <<< 8) ||| ((n &&& 0xFF00) >>> 8)

/-- Embeds `mtbase::BSwap32` (src/src/mtbase/util.h). For a 32-bit argument
no intermediate exceeds 32 bits, so no reduction is needed. -/
def BSwap32 (n : Nat) : Nat :=
  ((n &&& 0x000000FF) <<< 24) ||| ((n &&& 0x0000FF00) <<< 8) |||
    ((n &&& 0x00FF0000) >>> 8) ||| ((n &&& 0xFF000000) >>> 24)

/-- Embeds `mtbase::BSwap64` (src/src/mtbase/util.h). The final `n << 32`
overflows `uint64`, hence the `% 2 ^ 64`; the earlier shifted operands are
masked so that they stay below `2 ^ 64` for 64-bit input. -/
def BSwap64 (n : Nat) : Nat :=
  let n1 := ((n &&& 0xff00ff00ff00ff00) >>> 8) ||| ((n &&& 0x00ff00ff00ff00ff) <<< 8)
  let n2 := ((n1 &&& 0xffff0000ffff0000) >>> 16) ||| ((n1 &&& 0x0000ffff0000ffff) <<< 16)
  (n2 >>> 32) ||| ((n2 <<< 32) % (2 ^ 64))

/-- First line of `BSwap64`, named for the bit-level proofs. -/
def bswapStep8 (n : Nat) : Nat :=
  ((n &&& 0xff00ff00ff00ff00) >>> 8) ||| ((n &&& 0x00ff00ff00ff00ff) <<< 8)

/-- Second line of `BSwap64`, named for the bit-level proofs. -/
def bswapStep16 (n : Nat) : Nat :=
  ((n &&& 0xffff0000ffff0000) >>> 16) ||| ((n &&& 0x0000ffff0000ffff) <<< 16)

/-- Return line of `BSwap64`, named for the bit-level proofs. -/
def bswapStep32 (n : Nat) : Nat :=
  (n >>> 32) ||| ((n <<< 32) % (2 ^ 64))

/-- Error type of the byte-block codec; the specification calls the
decoder failure `CorruptedInput`. -/
inductive CodecErr where
  | CorruptedInput
deriving DecidableEq

/-- Modelled from the spec: the implementation of `mtbase::BtCompress` is
not under src/ (only its declaration in src/src/mtbase/util.h is). The
spec describes a general-purpose lossless byte-block codec with
Snappy-style framing; Snappy frames start with the uncompressed length as
a base-128 varint. This model keeps the payload literal behind that
length header. Varint length encoder, low digits first. -/
def varintEnc (n : Nat) : List Nat :=
  if n < 128 then [n] else (n % 128 + 128) :: varintEnc (n / 128)
termination_by n
decreasing_by
  simp_wf
  omega

/-- Modelled from the spec: varint length decoder matching `varintEnc`;
returns the decoded length and the remaining bytes, or `none` when the
header is truncated. -/
def varintDec : List Nat → Option (Nat × List Nat)
  | [] => none
  | d :: rest =>
    if d < 128 then some (d, rest)
    else
      match varintDec rest with
      | some (m, r) => some (d - 128 + 128 * m, r)
      | none => none

/-- Modelled from the spec: `mtbase::BtCompress` (implementation absent
from src/) — frame the buffer as length header plus payload. The source
returns `bool` with an output parameter; compression itself cannot fail,
so the model is total. -/
def BtCompress (src : List Nat) : List Nat :=
  varintEnc src.length ++ src

/-- Modelled from the spec: `mtbase::BtUncompress` (implementation absent
from src/) — parse the length header, check that it matches the payload,
and fail with `CorruptedInput` on a malformed frame. The C `false` return
is the `Except.error` case. -/
def BtUncompress (src : List Nat) : Except CodecErr (List Nat) :=
  match varintDec src with
  | some (n, rest) =>
    if rest.length = n then Except.ok rest else Except.error CodecErr.CorruptedInput
  | none => Except.error CodecErr.CorruptedInput

/-- A byte string is a well-formed frame when the length header parses and
matches the payload length. -/
def wellFormedFrame (src : List Nat) : Bool :=
  match varintDec src with
  | some (n, rest) => decide (rest.length = n)
  | none => false

end Mtbase

namespace Ctsdb

/-!
Modelled from the spec: the CTSDB engine (`CCTSDB` in storage/ctsdb.h) is
not under src/; only its test driver src/test/test_big_main.cpp is. The
model follows §3 and §4.D of the spec: a write buffer mapping
`bucket → (key → record)` where the last write wins, on-disk chunks
mapping `bucket → (key → record)` with unique keys, `Update` buffering
under bucket `⌊t / B⌋`, `Retrieve` consulting the buffer before the chunk,
and `Flush` merging buffered buckets over existing chunks in ascending
bucket order, clearing flushed buckets from the buffer, with a per-bucket
write oracle standing for chunk-store I/O (`FlushFailed`). Key order
inside a chunk is not modelled; no claim observes it.
-/

/-- Association-list lookup; the first binding for a key wins. -/
def lookupA {K R : Type} [DecidableEq K] : List (K × R) → K → Option R
  | [], _ => none
  | (k0, r0) :: rest, k => if k = k0 then some r0 else lookupA rest k

/-- A bucket map: list of `(bucket id, entries)`. -/
abbrev Buckets (K R : Type) := List (Nat × List (K × R))

/-- Lookup of a bucket id in a bucket map. -/
def bucketGet {K R : Type} : Buckets K R → Nat → Option (List (K × R))
  | [], _ => none
  | (b0, m) :: rest, b => if b = b0 then some m else bucketGet rest b

/-- Buffer insertion, keeping bucket ids strictly ascending; the new
binding is consed onto the front of its bucket so the last write wins. -/
def bufInsert {K R : Type} (b : Nat) (k : K) (r : R) : Buckets K R → Buckets K R
  | [] => [(b, [(k, r)])]
  | (b0, m) :: rest =>
    if b = b0 then (b0, (k, r) :: m) :: rest
    else if b < b0 then (b, [(k, r)]) :: (b0, m) :: rest
    else (b0, m) :: bufInsert b k r rest

/-- Replace (or append) the chunk stored for a bucket. -/
def chunkPut {K R : Type} (b : Nat) (m : List (K × R)) : Buckets K R → Buckets K R
  | [] => [(b, m)]
  | (b0, m0) :: rest =>
    if b = b0 then (b, m) :: rest else (b0, m0) :: chunkPut b m rest

/-- Deduplicate entries by key, keeping the first occurrence; `seen`
accumulates the keys already emitted. -/
def dedupKeysAux {K R : Type} [DecidableEq K] (seen : List K) : List (K × R) → List (K × R)
  | [] => []
  | (k, r) :: rest =>
    if k ∈ seen then dedupKeysAux seen rest
    else (k, r) :: dedupKeysAux (k :: seen) rest

/-- Deduplicate entries by key, keeping the first occurrence (spec §4.C:
the writer deduplicates by key keeping the last write, and the merged
list below puts the freshest bindings first). -/
def dedupKeys {K R : Type} [DecidableEq K] (l : List (K × R)) : List (K × R) :=
  dedupKeysAux [] l

/-- CTSDB state: bucket width `B`, write buffer, on-disk chunks. -/
structure DB (K R : Type) where
  bucketWidth : Nat
  buffer : Buckets K R
  chunks : Buckets K R

/-- The bucket of a timestamp is `⌊t / B⌋` (spec §3). -/
def bucketOf {K R : Type} (db : DB K R) (t : Nat) : Nat :=
  t / db.bucketWidth

/-- `Update(t, k, r)`: buffer the write under `bucket(t)`. -/
def Update {K R : Type} [DecidableEq K] (db : DB K R) (t : Nat) (k : K) (r : R) : DB K R :=
  { db with buffer := bufInsert (bucketOf db t) k r db.buffer }

/-- View of one `(bucket, key)` slot in a bucket map. -/
def bkLookup {K R : Type} [DecidableEq K] (bs : Buckets K R) (b : Nat) (k : K) : Option R :=
  match bucketGet bs b with
  | some m => lookupA m k
  | none => none

/-- Combined view: the buffer shadows the on-disk chunk. -/
def bkView {K R : Type} [DecidableEq K] (bufs chs : Buckets K R) (b : Nat) (k : K) : Option R :=
  match bkLookup bufs b k with
  | some r => some r
  | none => bkLookup chs b k

/-- `Retrieve(t, k)`: first consult the buffer for `bucket(t)`, else the
chunk; `none` exactly when no record exists for that `(bucket, k)`. -/
def Retrieve {K R : Type} [DecidableEq K] (db : DB K R) (t : Nat) (k : K) : Option R :=
  bkView db.buffer db.chunks (bucketOf db t) k

/-- Entries written for one flushed bucket: buffered entries override the
existing chunk entries, deduplicated by key. -/
def mergeChunk {K R : Type} [DecidableEq K] (bufm : List (K × R)) (old : Option (List (K × R))) : List (K × R) :=
  dedupKeys (bufm ++ (match old with | some cm => cm | none => []))

/-- Flush loop over the buffered buckets in ascending order: write each
bucket through the oracle `wr`; on failure stop, keeping that bucket and
all later ones buffered (spec §4.D `FlushFailed`). Returns
`(success, chunks, remaining buffer)`. -/
def flushLoop {K R : Type} [DecidableEq K] (wr : Nat → Bool) :
    Buckets K R → Buckets K R → Bool × Buckets K R × Buckets K R
  | [], chs => (true, chs, [])
  | (b, m) :: rest, chs =>
    if wr b then flushLoop wr rest (chunkPut b (mergeChunk m (bucketGet chs b)) chs)
    else (false, chs, (b, m) :: rest)

/-- `Flush()`: drain the buffer into chunks, ascending by bucket. -/
def Flush {K R : Type} [DecidableEq K] (db : DB K R) (wr : Nat → Bool) : Bool × DB K R :=
  let res := flushLoop wr db.buffer db.chunks
  (res.1, { db with chunks := res.2.1, buffer := res.2.2 })

/-- Operations interleaved between an `Update` and a `Retrieve`: further
updates and flushes (each flush carrying its write oracle). -/
inductive Op (K R : Type) where
  | update (t : Nat) (k : K) (r : R)
  | flush (wr : Nat → Bool)

/-- Apply one operation to the database state. -/
def applyOp {K R : Type} [DecidableEq K] (db : DB K R) : Op K R → DB K R
  | Op.update t k r => Update db t k r
  | Op.flush wr => (Flush db wr).2

/-- Apply a sequence of operations, oldest first. -/
def applyOps {K R : Type} [DecidableEq K] (db : DB K R) (ops : List (Op K R)) : DB K R :=
  ops.foldl applyOp db

/-- Does an operation write to the `(bucket(t), k)` slot? Flushes never
do; an update does when its timestamp falls in the same bucket and its
key is `k`. -/
def touchesKey {K R : Type} [DecidableEq K] (width t : Nat) (k : K) : Op K R → Bool
  | Op.update t2 k2 _ => decide (t2 / width = t / width) && decide (k2 = k)
  | Op.flush _ => false

/-- Reachable buffers have strictly ascending bucket ids (`Update` inserts
in order, `Flush` keeps a suffix). -/
def BucketsSorted {K R : Type} (bs : Buckets K R) : Prop :=
  List.Pairwise (fun p q => p.1 < q.1) bs

end Ctsdb

namespace Entry

/-- The module kinds dispatched by `CBbEntry::InitializeModules`
(src/src/blockchain/entry.cpp). -/
inductive EModuleType where
  | LOCK
  | BLOCKMAKER
  | COREPROTOCOL
  | DISPATCHER
  | HTTPGET
  | HTTPSERVER
  | NETCHANNEL
  | BLOCKCHANNEL
  | CERTTXCHANNEL
  | USERTXCHANNEL
  | DELEGATEDCHANNEL
  | NETWORK
  | RPCCLIENT
  | RPCMODE
  | SERVICE
  | TXPOOL
  | WALLET
  | BLOCKCHAIN
  | FORKMANAGER
  | CONSENSUS
  | DATASTAT
  | RECOVERY
deriving DecidableEq

/-- Environment oracles for the module loop: whether `TryLockFile` on
`<data>/.lock` succeeds, whether attaching each instantiated module
succeeds (`CBbEntry::AttachModule`), and for `RPCMODE` whether the
`httpserver` lookup and `GetRPCHostConfig` succeed. -/
structure ModEnv where
  lockOk : Bool
  attachOk : EModuleType → Bool
  httpServerFound : Bool
  rpcHostConfigOk : Bool

/-- Outcome of one `switch` case of `CBbEntry::InitializeModules`
(src/src/blockchain/entry.cpp): `LOCK` tries the file lock on
`<data>/.lock` and succeeds when `TryLockFile` does; `RPCMODE` needs the
`httpserver` object, the RPC host config, and its attach; every other
kind instantiates its module and succeeds when `AttachModule` does. -/
def moduleStep (env : ModEnv) (m : EModuleType) : Bool :=
  match m with
  | EModuleType.LOCK => env.lockOk
  | EModuleType.RPCMODE =>
    env.httpServerFound && env.rpcHostConfigOk && env.attachOk EModuleType.RPCMODE
  | m => env.attachOk m

/-- Which kinds leave a module attached to the container on success —
all of them except the `LOCK` pseudo-module, which only takes the file
lock. -/
def moduleAttaches : EModuleType → Bool
  | EModuleType.LOCK => false
  | _ => true

/-- Embeds the loop of `CBbEntry::InitializeModules`
(src/src/blockchain/entry.cpp): process each listed kind in order; a
failing case returns `false` at once, so nothing after it is instantiated
or attached. Returns the overall result and the list of modules this call
attached (in order). -/
def initModulesLoop (env : ModEnv) : List EModuleType → Bool × List EModuleType
  | [] => (true, [])
  | m :: rest =>
    if moduleStep env m then
      let res := initModulesLoop env rest
      (res.1, if moduleAttaches m then m :: res.2 else res.2)
    else (false, [])

/-- `MINIMUM_HARD_DISK_AVAILABLE` (src/src/blockchain/entry.cpp line 41). -/
def MINIMUM_HARD_DISK_AVAILABLE : Nat := 104857600

/-- Environment oracles for `CBbEntry::Initialize`: configuration results,
file-system answers and the outcomes of the external steps. -/
structure EntryEnv where
  configLoadOk : Bool
  fHelp : Bool
  fVersion : Bool
  fPurge : Bool
  nLogFileSize : Int
  nLogHistorySize : Int
  pathExists : Bool
  createDirOk : Bool
  isDirectory : Bool
  diskAvailable : Nat
  fDaemon : Bool
  modeIsServerOrMiner : Bool
  daemonOk : Bool
  setLogFilePathOk : Bool
  initLogOk : Bool
  dockerInitOk : Bool
  modEnv : ModEnv
  modules : List EModuleType

/-- Outcome of `CBbEntry::Initialize`: the returned boolean, whether
`create_directories` was invoked, and whether the module loop was
reached. -/
structure EntryResult where
  ok : Bool
  createDirCalled : Bool
  modulesReached : Bool
deriving DecidableEq

/-- Embeds the step sequence of `CBbEntry::Initialize`
(src/src/blockchain/entry.cpp): config load, help / version / purge early
exits, log-size range checks, then the data-directory block (create the
directory when missing, require a directory, require at least
`MINIMUM_HARD_DISK_AVAILABLE` bytes free), then daemonization, log setup,
docker setup, and finally the module loop. -/
def entryInit (env : EntryEnv) : EntryResult :=
  if !env.configLoadOk then ⟨false, false, false⟩
  else if env.fHelp then ⟨false, false, false⟩
  else if env.fVersion then ⟨false, false, false⟩
  else if env.fPurge then ⟨false, false, false⟩
  else if env.nLogFileSize < 1 ∨ env.nLogFileSize > 2048 then ⟨false, false, false⟩
  else if env.nLogHistorySize < 2 ∨ env.nLogHistorySize > 0x7FFFFFFF then ⟨false, false, false⟩
  else
    let createCalled := !env.pathExists
    if !env.pathExists && !env.createDirOk then ⟨false, createCalled, false⟩
    else if !env.isDirectory then ⟨false, createCalled, false⟩
    else if env.diskAvailable < MINIMUM_HARD_DISK_AVAILABLE then ⟨false, createCalled, false⟩
    else if env.fDaemon && env.modeIsServerOrMiner && !env.daemonOk then ⟨false, createCalled, false⟩
    else if env.modeIsServerOrMiner && env.setLogFilePathOk && !env.initLogOk then ⟨false, createCalled, false⟩
    else if !env.dockerInitOk then ⟨false, createCalled, false⟩
    else ⟨(initModulesLoop env.modEnv env.modules).1, createCalled, true⟩

/-- Did the directory-validation block abort? True exactly when the
result aborted at the create, not-a-directory or disk-space check. -/
def dirStageFailed (env : EntryEnv) : Prop :=
  (entryInit env).ok = false ∧ (entryInit env).modulesReached = false

/-- Modelled from the spec: `CDocker::Attach` is not under src/ (only its
caller `CBbEntry::AttachModule` is). Per spec §4.E, attach rejects
duplicate names and returns failure; otherwise the instance is appended
in attach order. Module instances are identified by their declared name,
modelled as `Nat`. -/
def dockerAttach (docker : List Nat) (name : Nat) : Option (List Nat) :=
  if name ∈ docker then none else some (docker ++ [name])

/-- Outcome of `CBbEntry::AttachModule`: returned boolean, container
contents afterwards, and whether `delete pBase` ran. -/
structure AttachResult where
  ok : Bool
  docker : List Nat
  discarded : Bool
deriving DecidableEq

/-- Embeds `CBbEntry::AttachModule` (src/src/blockchain/entry.cpp): a null
instance or a rejecting `docker.Attach` deletes the instance and returns
`false`; otherwise the container keeps the instance and the call returns
`true`. -/
def AttachModule (docker : List Nat) (inst : Option Nat) : AttachResult :=
  match inst with
  | none => ⟨false, docker, true⟩
  | some name =>
    match dockerAttach docker name with
    | some d2 => ⟨true, d2, false⟩
    | none => ⟨false, docker, true⟩

end Entry


namespace Mtbase

theorem charToHex_lt (c : Nat) : CharToHex c < 16 := by
  unfold CharToHex
  split_ifs <;> omega

theorem isHexDigit_iff (c : Nat) :
    isHexDigit c = true ↔ (48 ≤ c ∧ c ≤ 57) ∨ (97 ≤ c ∧ c ≤ 102) ∨ (65 ≤ c ∧ c ≤ 70) := by
  unfold isHexDigit CharToHex
  split_ifs <;> simp <;> omega

theorem charToHex_neg (c : Nat) (h : isHexDigit c = false) : CharToHex c < 0 := by
  unfold isHexDigit at h
  simp only [decide_eq_false_iff_not, Int.not_le] at h
  exact h

theorem charToHex_nonneg (c : Nat) (h : isHexDigit c = true) : 0 ≤ CharToHex c := by
  unfold isHexDigit at h
  simpa using h

theorem hexDigit_tolower_ne_x (c : Nat) (h : isHexDigit c = true) : tolowerC c ≠ 120 := by
  have h2 := (isHexDigit_iff c).1 h
  unfold tolowerC
  split_ifs <;> omega

theorem hexDigit_ne_48_of_not (c : Nat) (h : isHexDigit c = false) : c ≠ 48 := by
  intro hc
  have := charToHex_neg c h
  rw [hc] at this
  unfold CharToHex at this
  simp at this

theorem hexOr16 : ∀ a, a < 16 → ∀ b, b < 16 → (a <<< 4) ||| b = a * 16 + b := by decide

theorem parseHexLoop_cons_cons (c1 c2 : Nat) (rest : List Nat) :
    parseHexLoop (c1 :: c2 :: rest) =
      if CharToHex c1 < 0 ∨ CharToHex c2 < 0 then []
      else (((CharToHex c1).toNat <<< 4) ||| (CharToHex c2).toNat) :: parseHexLoop rest := rfl

theorem parseHexLoop_pairs (ps : List (Nat × Nat)) (c : Nat) (rest : List Nat)
    (hps : ∀ p ∈ ps, isHexDigit p.1 = true ∧ isHexDigit p.2 = true)
    (hc : isHexDigit c = false) :
    parseHexLoop (hexPairsFlat ps ++ c :: rest) = hexPairsBytes ps := by
  induction ps with
  | nil =>
    have hneg := charToHex_neg c hc
    simp only [hexPairsFlat, List.flatMap_nil, List.nil_append, hexPairsBytes, List.map_nil]
    cases rest with
    | nil => rfl
    | cons c2 rest2 =>
      rw [parseHexLoop_cons_cons, if_pos (Or.inl hneg)]
  | cons p ps ih =>
    obtain ⟨h1, h2⟩ := hps p (List.mem_cons_self p ps)
    have hrec := ih (fun q hq => hps q (List.mem_cons_of_mem p hq))
    have hn1 := charToHex_nonneg p.1 h1
    have hn2 := charToHex_nonneg p.2 h2
    have hl1 := charToHex_lt p.1
    have hl2 := charToHex_lt p.2
    have hflat : hexPairsFlat (p :: ps) ++ c :: rest
        = p.1 :: p.2 :: (hexPairsFlat ps ++ c :: rest) := by
      simp [hexPairsFlat]
    rw [hflat, parseHexLoop_cons_cons, if_neg (by omega), hrec,
      hexOr16 _ (by omega) _ (by omega)]
    rfl

theorem hasHexPrefix_pairs (ps : List (Nat × Nat)) (c : Nat) (rest : List Nat)
    (hps : ∀ p ∈ ps, isHexDigit p.1 = true ∧ isHexDigit p.2 = true)
    (hc : isHexDigit c = false) :
    hasHexPrefix (hexPairsFlat ps ++ c :: rest) = false := by
  cases ps with
  | nil =>
    have hc48 := hexDigit_ne_48_of_not c hc
    cases rest with
    | nil => rfl
    | cons c2 rest2 =>
      simp only [hexPairsFlat, List.flatMap_nil, List.nil_append, hasHexPrefix,
        decide_eq_false_iff_not]
      intro hcontra
      exact hc48 hcontra.1
  | cons p ps2 =>
    obtain ⟨h1, h2⟩ := hps p (List.mem_cons_self p ps2)
    have hflat : hexPairsFlat (p :: ps2) ++ c :: rest
        = p.1 :: p.2 :: (hexPairsFlat ps2 ++ c :: rest) := by
      simp [hexPairsFlat]
    rw [hflat]
    simp only [hasHexPrefix, decide_eq_false_iff_not]
    intro hcontra
    exact hexDigit_tolower_ne_x p.2 h2 hcontra.2

/-- C4: `ParseHexString` decodes with an optional leading `0x` / `0X`
marker, stops at the first character that is not a hex digit, and returns
exactly the whole bytes decoded before that point; being a total
function, it never fails. -/
theorem parseHexString_tolerant (ps : List (Nat × Nat)) (c : Nat) (rest : List Nat)
    (hps : ∀ p ∈ ps, isHexDigit p.1 = true ∧ isHexDigit p.2 = true)
    (hc : isHexDigit c = false) :
    ParseHexString (48 :: 120 :: (hexPairsFlat ps ++ c :: rest)) = hexPairsBytes ps ∧
    ParseHexString (48 :: 88 :: (hexPairsFlat ps ++ c :: rest)) = hexPairsBytes ps ∧
    ParseHexString (hexPairsFlat ps ++ c :: rest) = hexPairsBytes ps := by
  refine ⟨?_, ?_, ?_⟩
  · unfold ParseHexString
    rw [if_pos (by simp [hasHexPrefix, tolowerC])]
    exact parseHexLoop_pairs ps c rest hps hc
  · unfold ParseHexString
    rw [if_pos (by simp [hasHexPrefix, tolowerC])]
    exact parseHexLoop_pairs ps c rest hps hc
  · unfold ParseHexString
    rw [if_neg (by simp [hasHexPrefix_pairs ps c rest hps hc])]
    exact parseHexLoop_pairs ps c rest hps hc

/-- C4 witness: `"12af"` followed by `'g'` and a trailing `'4'` decodes to
the two bytes `0x12 0xaf`, with the `0x` marker, the `0X` marker and no
marker. -/
theorem parseHexString_tolerant_witness :
    (∀ p ∈ [((49 : Nat), (50 : Nat)), (97, 102)], isHexDigit p.1 = true ∧ isHexDigit p.2 = true) ∧
    isHexDigit 103 = false ∧
    (ParseHexString (48 :: 120 :: (hexPairsFlat [(49, 50), (97, 102)] ++ 103 :: [52])) = hexPairsBytes [(49, 50), (97, 102)] ∧
      ParseHexString (48 :: 88 :: (hexPairsFlat [(49, 50), (97, 102)] ++ 103 :: [52])) = hexPairsBytes [(49, 50), (97, 102)] ∧
      ParseHexString (hexPairsFlat [(49, 50), (97, 102)] ++ 103 :: [52]) = hexPairsBytes [(49, 50), (97, 102)]) :=
  ⟨by decide, by decide,
    parseHexString_tolerant [(49, 50), (97, 102)] 103 [52] (by decide) (by decide)⟩

end Mtbase

namespace Mtbase

theorem hexc_charToHex : ∀ d, d < 16 → CharToHex (hexc.getD d 0) = (d : Int) := by decide

set_option maxRecDepth 4000 in
theorem byte_split : ∀ cb, cb < 256 →
    (cb >>> 4) < 16 ∧ (cb &&& 15) < 16 ∧ ((cb >>> 4) <<< 4) ||| (cb &&& 15) = cb := by decide

theorem parseHexLoop_encode (v : List Nat) (hv : ∀ b ∈ v, b < 256) :
    parseHexLoop (v.flatMap (fun c => [hexc.getD (c >>> 4) 0, hexc.getD (c &&& 15) 0])) = v := by
  induction v with
  | nil => rfl
  | cons cb v ih =>
    have hcb := hv cb (List.mem_cons_self cb v)
    obtain ⟨hhi, hlo, hrecon⟩ := byte_split cb hcb
    have e1 := hexc_charToHex (cb >>> 4) hhi
    have e2 := hexc_charToHex (cb &&& 15) hlo
    rw [List.flatMap_cons, List.cons_append, List.cons_append, List.nil_append,
      parseHexLoop_cons_cons, if_neg (by omega), ih (fun b hb => hv b (List.mem_cons_of_mem cb hb))]
    rw [e1, e2]
    simp only [Int.toNat_natCast]
    rw [hrecon]

/-- C10: hex encode / decode round-trip — `ParseHexString` recovers every
byte vector from `ToHexString`, including the empty vector (whose
rendering is the empty string). -/
theorem hex_roundtrip (v : List Nat) (hv : ∀ b ∈ v, b < 256) :
    ParseHexString (ToHexString v) = v := by
  cases v with
  | nil => rfl
  | cons cb v =>
    unfold ToHexString
    rw [if_neg (by simp)]
    unfold ParseHexString
    rw [if_pos (by simp [hasHexPrefix, tolowerC])]
    exact parseHexLoop_encode (cb :: v) hv

/-- C10 witness: the bytes `[0x00, 0xab, 0xff, 0x10]` survive the
round-trip. -/
theorem hex_roundtrip_witness :
    (∀ b ∈ [(0 : Nat), 171, 255, 16], b < 256) ∧
    ParseHexString (ToHexString [0, 171, 255, 16]) = [0, 171, 255, 16] :=
  ⟨by decide, hex_roundtrip [0, 171, 255, 16] (by decide)⟩

theorem chunkPairs_append_pair (l : List Nat) (x y : Nat) (hl : l.length % 2 = 0) :
    chunkPairs (l ++ [x, y]) = chunkPairs l ++ [[x, y]] := by
  induction l using chunkPairs.induct with
  | case1 => rfl
  | case2 d => simp at hl
  | case3 d1 d2 rest ih =>
    have h2 : rest.length % 2 = 0 := by simp at hl; omega
    show [d1, d2] :: chunkPairs (rest ++ [x, y]) = [d1, d2] :: (chunkPairs rest ++ [[x, y]])
    rw [ih h2]

theorem revPairsAux_eq (l : List Nat) (hl : l.length % 2 = 1) :
    revPairsAux l = byteReverseHexDigits (48 :: l.reverse) := by
  induction l using revPairsAux.induct with
  | case1 => simp at hl
  | case2 d => rfl
  | case3 dlow dhigh rest ih =>
    have hrest : rest.length % 2 = 1 := by simp at hl; omega
    have heven : (48 :: rest.reverse).length % 2 = 0 := by simp; omega
    show dhigh :: dlow :: revPairsAux rest
        = byteReverseHexDigits (48 :: (dlow :: dhigh :: rest).reverse)
    rw [ih hrest]
    have hrev : (48 :: (dlow :: dhigh :: rest).reverse)
        = (48 :: rest.reverse) ++ [dhigh, dlow] := by
      simp
    rw [hrev]
    unfold byteReverseHexDigits
    rw [chunkPairs_append_pair _ _ _ heven]
    simp

theorem isHexNumericChar_of_digit (d : Nat) (h : isHexDigit d = true) :
    isHexNumericChar d = true := by
  have h2 := (isHexDigit_iff d).1 h
  simp only [isHexNumericChar, Bool.or_eq_true, Bool.and_eq_true, decide_eq_true_eq]
  omega

theorem reverseHex_empty_of_bad (s : List Nat)
    (h : hasHexPrefix s = false ∨ ∃ cc ∈ s, isHexNumericChar cc = false) :
    ReverseHexNumericString s = [] := by
  unfold ReverseHexNumericString
  rcases h with h | h
  · split_ifs with h1 h2
    · rfl
    · rw [h2] at h; cases h
    · rfl
  · have : isHexNumeric s = false := by
      unfold isHexNumeric
      have : s.all isHexNumericChar = false := by
        rw [List.all_eq_false]
        obtain ⟨cc, hmem, hcc⟩ := h
        exact ⟨cc, hmem, by simp [hcc]⟩
      simp [this]
    rw [this]
    rfl

/-- C5 counterexample: the claim says every input containing a non-hex
character yields the empty string, but `"0x1x3"` (codes
`[48, 120, 49, 120, 51]`) contains the non-hex character `'x'` (120)
after the marker and still yields `"0xx301"`, not the empty string. -/
theorem reverseHexNumericString_claim_counterexample :
    isHexDigit 120 = false ∧
    ReverseHexNumericString [48, 120, 49, 120, 51] = [48, 120, 120, 51, 48, 49] ∧
    ReverseHexNumericString [48, 120, 49, 120, 51] ≠ [] := by decide

/-- C5 (amended): for every `0x`-marked string of an odd number of hex
digits, `ReverseHexNumericString` pairs digits from the right, zero-pads
the leftmost nibble and returns the byte-reversed string; inputs without
the marker, or containing a character other than hex digits, `'x'` and
`'X'`, yield the empty string. -/
theorem reverseHexNumericString_amended :
    (∀ ds : List Nat, ds ≠ [] → (∀ d ∈ ds, isHexDigit d = true) → ds.length % 2 = 1 →
      ReverseHexNumericString (48 :: 120 :: ds) = 48 :: 120 :: byteReverseHexDigits (48 :: ds)) ∧
    (∀ s : List Nat, hasHexPrefix s = false ∨ (∃ cc ∈ s, isHexNumericChar cc = false) →
      ReverseHexNumericString s = []) := by
  constructor
  · intro ds hne hds hodd
    unfold ReverseHexNumericString
    have hnum : isHexNumeric (48 :: 120 :: ds) = true := by
      unfold isHexNumeric
      simp only [List.isEmpty_cons, Bool.not_false, Bool.true_and, List.all_cons,
        Bool.and_eq_true]
      refine ⟨by decide, by decide, ?_⟩
      rw [List.all_eq_true]
      exact fun d hd => isHexNumericChar_of_digit d (hds d hd)
    rw [hnum]
    rw [if_neg (by simp), if_pos (by simp [hasHexPrefix, tolowerC])]
    have : ((48 :: 120 :: ds).drop 2) = ds := rfl
    rw [this, revPairsAux_eq ds.reverse (by simpa using hodd)]
    simp
  · exact reverseHex_empty_of_bad

/-- C5 witness: `"0x123"` becomes `"0x2301"`, and the marker-less `"123"`
yields the empty string. -/
theorem reverseHexNumericString_amended_witness :
    ([49, 50, 51] ≠ ([] : List Nat) ∧ (∀ d ∈ [(49 : Nat), 50, 51], isHexDigit d = true) ∧
      ([(49 : Nat), 50, 51] : List Nat).length % 2 = 1 ∧
      ReverseHexNumericString (48 :: 120 :: [49, 50, 51]) = 48 :: 120 :: byteReverseHexDigits (48 :: [49, 50, 51]) ∧
      48 :: 120 :: byteReverseHexDigits (48 :: [49, 50, 51]) = [48, 120, 50, 51, 48, 49]) ∧
    (hasHexPrefix [49, 120, 51] = false ∧ ReverseHexNumericString [49, 120, 51] = []) :=
  And.intro
    (And.intro (by decide) (And.intro (by decide) (And.intro (by decide) (And.intro
      (reverseHexNumericString_amended.1 [49, 50, 51] (by decide) (by decide) (by decide))
      (by decide)))))
    (And.intro (by decide)
      (reverseHexNumericString_amended.2 [49, 120, 51] (Or.inl (by decide))))

end Mtbase

namespace Mtbase

theorem bswap16_lt (n : Nat) : BSwap16 n < 2 ^ 16 := by
  apply Nat.or_lt_two_pow
  · calc (n &&& 0x00FF) <<< 8 ≤ 0x00FF <<< 8 := by
          rw [Nat.shiftLeft_eq, Nat.shiftLeft_eq]
          exact Nat.mul_le_mul_right _ Nat.and_le_right
       _ < 2 ^ 16 := by decide
  · calc (n &&& 0xFF00) >>> 8 ≤ 0xFF00 >>> 8 := by
          rw [Nat.shiftRight_eq_div_pow, Nat.shiftRight_eq_div_pow]
          exact Nat.div_le_div_right Nat.and_le_right
       _ < 2 ^ 16 := by decide

theorem bswap16_invol (n : Nat) (h : n < 2 ^ 16) : BSwap16 (BSwap16 n % 2 ^ 16) = n := by
  have hlt := bswap16_lt n
  rw [Nat.mod_eq_of_lt hlt]
  apply Nat.eq_of_testBit_eq
  intro i
  by_cases hi : i < 16
  · unfold BSwap16
    rw [show (0x00FF : Nat) = 2 ^ 8 - 1 by decide,
        show (0xFF00 : Nat) = (2 ^ 8 - 1) <<< 8 by decide]
    simp only [Nat.testBit_lor, Nat.testBit_land, Nat.testBit_shiftLeft,
      Nat.testBit_shiftRight, Nat.testBit_two_pow_sub_one]
    interval_cases i <;> simp
  · have h1 : Nat.testBit n i = false :=
      Nat.testBit_lt_two_pow (lt_of_lt_of_le h (Nat.pow_le_pow_right (by norm_num) (by omega)))
    have h2 : Nat.testBit (BSwap16 (BSwap16 n)) i = false :=
      Nat.testBit_lt_two_pow (lt_of_lt_of_le (bswap16_lt _) (Nat.pow_le_pow_right (by norm_num) (by omega)))
    rw [h1, h2]

theorem bswap32_lt (n : Nat) : BSwap32 n < 2 ^ 32 := by
  unfold BSwap32
  apply Nat.or_lt_two_pow
  apply Nat.or_lt_two_pow
  apply Nat.or_lt_two_pow
  · calc (n &&& 0x000000FF) <<< 24 ≤ 0x000000FF <<< 24 := by
          rw [Nat.shiftLeft_eq, Nat.shiftLeft_eq]
          exact Nat.mul_le_mul_right _ Nat.and_le_right
       _ < 2 ^ 32 := by decide
  · calc (n &&& 0x0000FF00) <<< 8 ≤ 0x0000FF00 <<< 8 := by
          rw [Nat.shiftLeft_eq, Nat.shiftLeft_eq]
          exact Nat.mul_le_mul_right _ Nat.and_le_right
       _ < 2 ^ 32 := by decide
  · calc (n &&& 0x00FF0000) >>> 8 ≤ 0x00FF0000 >>> 8 := by
          rw [Nat.shiftRight_eq_div_pow, Nat.shiftRight_eq_div_pow]
          exact Nat.div_le_div_right Nat.and_le_right
       _ < 2 ^ 32 := by decide
  · calc (n &&& 0xFF000000) >>> 24 ≤ 0xFF000000 >>> 24 := by
          rw [Nat.shiftRight_eq_div_pow, Nat.shiftRight_eq_div_pow]
          exact Nat.div_le_div_right Nat.and_le_right
       _ < 2 ^ 32 := by decide

theorem bswap32_invol (n : Nat) (h : n < 2 ^ 32) : BSwap32 (BSwap32 n) = n := by
  apply Nat.eq_of_testBit_eq
  intro i
  by_cases hi : i < 32
  · unfold BSwap32
    rw [show (0x000000FF : Nat) = 2 ^ 8 - 1 by decide,
        show (0x0000FF00 : Nat) = (2 ^ 8 - 1) <<< 8 by decide,
        show (0x00FF0000 : Nat) = (2 ^ 8 - 1) <<< 16 by decide,
        show (0xFF000000 : Nat) = (2 ^ 8 - 1) <<< 24 by decide]
    simp only [Nat.testBit_lor, Nat.testBit_land, Nat.testBit_shiftLeft,
      Nat.testBit_shiftRight, Nat.testBit_two_pow_sub_one]
    interval_cases i <;> simp
  · have h1 : Nat.testBit n i = false :=
      Nat.testBit_lt_two_pow (lt_of_lt_of_le h (Nat.pow_le_pow_right (by norm_num) (by omega)))
    have h2 : Nat.testBit (BSwap32 (BSwap32 n)) i = false :=
      Nat.testBit_lt_two_pow (lt_of_lt_of_le (bswap32_lt _) (Nat.pow_le_pow_right (by norm_num) (by omega)))
    rw [h1, h2]

theorem bswap64_eq_steps (n : Nat) : BSwap64 n = bswapStep32 (bswapStep16 (bswapStep8 n)) := rfl

theorem bswapStep8_lt (n : Nat) : bswapStep8 n < 2 ^ 64 := by
  apply Nat.or_lt_two_pow
  · calc (n &&& 0xff00ff00ff00ff00) >>> 8 ≤ 0xff00ff00ff00ff00 >>> 8 := by
          rw [Nat.shiftRight_eq_div_pow, Nat.shiftRight_eq_div_pow]
          exact Nat.div_le_div_right Nat.and_le_right
       _ < 2 ^ 64 := by decide
  · calc (n &&& 0x00ff00ff00ff00ff) <<< 8 ≤ 0x00ff00ff00ff00ff <<< 8 := by
          rw [Nat.shiftLeft_eq, Nat.shiftLeft_eq]
          exact Nat.mul_le_mul_right _ Nat.and_le_right
       _ < 2 ^ 64 := by decide

theorem bswapStep16_lt (n : Nat) : bswapStep16 n < 2 ^ 64 := by
  apply Nat.or_lt_two_pow
  · calc (n &&& 0xffff0000ffff0000) >>> 16 ≤ 0xffff0000ffff0000 >>> 16 := by
          rw [Nat.shiftRight_eq_div_pow, Nat.shiftRight_eq_div_pow]
          exact Nat.div_le_div_right Nat.and_le_right
       _ < 2 ^ 64 := by decide
  · calc (n &&& 0x0000ffff0000ffff) <<< 16 ≤ 0x0000ffff0000ffff <<< 16 := by
          rw [Nat.shiftLeft_eq, Nat.shiftLeft_eq]
          exact Nat.mul_le_mul_right _ Nat.and_le_right
       _ < 2 ^ 64 := by decide

theorem bswapStep32_lt (n : Nat) (h : n < 2 ^ 64) : bswapStep32 n < 2 ^ 64 := by
  apply Nat.or_lt_two_pow
  · calc n >>> 32 ≤ n := by
          rw [Nat.shiftRight_eq_div_pow]
          exact Nat.div_le_self _ _
       _ < 2 ^ 64 := h
  · exact Nat.mod_lt _ (by norm_num)

theorem bswap64_lt (n : Nat) : BSwap64 n < 2 ^ 64 := by
  rw [bswap64_eq_steps]
  exact bswapStep32_lt _ (bswapStep16_lt _)

theorem testBit_lt_64 (n i : Nat) (hn : n < 2 ^ 64) (hi : 64 ≤ i) : n.testBit i = false :=
  Nat.testBit_lt_two_pow (lt_of_lt_of_le hn (Nat.pow_le_pow_right (by norm_num) hi))

theorem testBit_step8 (n i : Nat) (hi : i < 64) :
    (bswapStep8 n).testBit i = n.testBit (if i % 16 < 8 then i + 8 else i - 8) := by
  unfold bswapStep8
  rw [show (0xff00ff00ff00ff00 : Nat)
        = ((2 ^ 8 - 1) <<< 8) ||| ((2 ^ 8 - 1) <<< 24) ||| ((2 ^ 8 - 1) <<< 40) ||| ((2 ^ 8 - 1) <<< 56) by decide,
      show (0x00ff00ff00ff00ff : Nat)
        = (2 ^ 8 - 1) ||| ((2 ^ 8 - 1) <<< 16) ||| ((2 ^ 8 - 1) <<< 32) ||| ((2 ^ 8 - 1) <<< 48) by decide]
  simp only [Nat.testBit_lor, Nat.testBit_land, Nat.testBit_shiftLeft,
    Nat.testBit_shiftRight, Nat.testBit_two_pow_sub_one]
  interval_cases i <;> simp

theorem testBit_step16 (n i : Nat) (hi : i < 64) :
    (bswapStep16 n).testBit i = n.testBit (if i % 32 < 16 then i + 16 else i - 16) := by
  unfold bswapStep16
  rw [show (0xffff0000ffff0000 : Nat)
        = ((2 ^ 16 - 1) <<< 16) ||| ((2 ^ 16 - 1) <<< 48) by decide,
      show (0x0000ffff0000ffff : Nat)
        = (2 ^ 16 - 1) ||| ((2 ^ 16 - 1) <<< 32) by decide]
  simp only [Nat.testBit_lor, Nat.testBit_land, Nat.testBit_shiftLeft,
    Nat.testBit_shiftRight, Nat.testBit_two_pow_sub_one]
  interval_cases i <;> simp

theorem testBit_step32 (n i : Nat) (hn : n < 2 ^ 64) (hi : i < 64) :
    (bswapStep32 n).testBit i = n.testBit (if i < 32 then i + 32 else i - 32) := by
  have hfalse : ∀ j, 64 ≤ j → n.testBit j = false := fun j hj => testBit_lt_64 n j hn hj
  unfold bswapStep32
  simp only [Nat.testBit_lor, Nat.testBit_shiftLeft, Nat.testBit_shiftRight,
    Nat.testBit_mod_two_pow]
  interval_cases i <;> simp [hfalse]

theorem testBit_bswap64 (n : Nat) (i : Nat) (hn : n < 2 ^ 64) (hi : i < 64) :
    (BSwap64 n).testBit i = n.testBit (56 - 8 * (i / 8) + i % 8) := by
  rw [bswap64_eq_steps, testBit_step32 _ _ (bswapStep16_lt _) hi]
  rw [testBit_step16]
  case hi => split <;> omega
  rw [testBit_step8]
  case hi => split <;> split <;> omega
  congr 1
  split <;> split <;> split <;> omega

theorem bswap64_invol (n : Nat) (h : n < 2 ^ 64) : BSwap64 (BSwap64 n) = n := by
  apply Nat.eq_of_testBit_eq
  intro i
  by_cases hi : i < 64
  · rw [testBit_bswap64 _ i (bswap64_lt n) hi, testBit_bswap64 _ _ h (by omega)]
    congr 1
    omega
  · rw [testBit_lt_64 n i h (by omega), testBit_lt_64 _ i (bswap64_lt _) (by omega)]

/-- C9: each byte-swap function is an involution on values of its width;
the `uint32` result of `BSwap16` is truncated to 16 bits when passed back
through the `uint16` parameter. -/
theorem bswap_involutions :
    (∀ n, n < 2 ^ 16 → BSwap16 (BSwap16 n % 2 ^ 16) = n) ∧
    (∀ n, n < 2 ^ 32 → BSwap32 (BSwap32 n) = n) ∧
    (∀ n, n < 2 ^ 64 → BSwap64 (BSwap64 n) = n) :=
  ⟨bswap16_invol, bswap32_invol, bswap64_invol⟩

/-- C9 witness: the involutions at `0x1234`, `0x12345678` and
`0x0123456789abcdef`. -/
theorem bswap_involutions_witness :
    (0x1234 < 2 ^ 16 ∧ BSwap16 (BSwap16 0x1234 % 2 ^ 16) = 0x1234) ∧
    (0x12345678 < 2 ^ 32 ∧ BSwap32 (BSwap32 0x12345678) = 0x12345678) ∧
    (0x0123456789abcdef < 2 ^ 64 ∧ BSwap64 (BSwap64 0x0123456789abcdef) = 0x0123456789abcdef) :=
  ⟨⟨by decide, bswap_involutions.1 0x1234 (by decide)⟩,
    ⟨by decide, bswap_involutions.2.1 0x12345678 (by decide)⟩,
    ⟨by decide, bswap_involutions.2.2 0x0123456789abcdef (by decide)⟩⟩

end Mtbase

namespace Mtbase

theorem varint_roundtrip (n : Nat) : ∀ t, varintDec (varintEnc n ++ t) = some (n, t) := by
  induction n using Nat.strong_induction_on with
  | _ n ih =>
    intro t
    unfold varintEnc
    split_ifs with h
    · simp [varintDec, h]
    · have hrec := ih (n / 128) (by omega) t
      rw [List.cons_append]
      unfold varintDec
      rw [if_neg (by omega), hrec]
      show some (n % 128 + 128 - 128 + 128 * (n / 128), t) = some (n, t)
      have : n % 128 + 128 - 128 + 128 * (n / 128) = n := by omega
      rw [this]

theorem btUncompress_not_ok_of_malformed (s : List Nat) (h : wellFormedFrame s = false) :
    BtUncompress s = Except.error CodecErr.CorruptedInput := by
  unfold wellFormedFrame at h
  unfold BtUncompress
  cases hdec : varintDec s with
  | none => rfl
  | some p =>
    obtain ⟨n, rest⟩ := p
    rw [hdec] at h
    show (if rest.length = n then Except.ok rest else Except.error CodecErr.CorruptedInput)
        = Except.error CodecErr.CorruptedInput
    rw [if_neg (by simpa using h)]

/-- C3: the codec round-trips every byte buffer, and `BtUncompress` fails
with `CorruptedInput` on every malformed frame instead of returning
bytes. -/
theorem compress_roundtrip_and_malformed :
    (∀ b : List Nat, BtUncompress (BtCompress b) = Except.ok b) ∧
    (∀ s : List Nat, wellFormedFrame s = false →
      BtUncompress s = Except.error CodecErr.CorruptedInput) := by
  constructor
  · intro b
    unfold BtCompress BtUncompress
    rw [varint_roundtrip b.length b]
    show (if b.length = b.length then Except.ok b else Except.error CodecErr.CorruptedInput)
        = Except.ok b
    rw [if_pos rfl]
  · exact btUncompress_not_ok_of_malformed

/-- C3 witness: the buffer `[1, 2, 3]` round-trips, and the malformed
frame `[5, 1]` (header announces 5 payload bytes, 1 present) is rejected
with `CorruptedInput`. -/
theorem compress_roundtrip_and_malformed_witness :
    BtUncompress (BtCompress [1, 2, 3]) = Except.ok [1, 2, 3] ∧
    (wellFormedFrame [5, 1] = false ∧
      BtUncompress [5, 1] = Except.error CodecErr.CorruptedInput) :=
  ⟨compress_roundtrip_and_malformed.1 [1, 2, 3],
    by decide, compress_roundtrip_and_malformed.2 [5, 1] (by decide)⟩

end Mtbase

namespace Ctsdb

variable {K R : Type} [DecidableEq K]

theorem lookupA_cons (k0 : K) (r0 : R) (rest : List (K × R)) (k : K) :
    lookupA ((k0, r0) :: rest) k = if k = k0 then some r0 else lookupA rest k := rfl

theorem bucketGet_cons (b0 : Nat) (m0 : List (K × R)) (rest : Buckets K R) (b : Nat) :
    bucketGet ((b0, m0) :: rest) b = if b = b0 then some m0 else bucketGet rest b := rfl

theorem flushLoop_cons (wr : Nat → Bool) (b0 : Nat) (m0 : List (K × R))
    (rest chs : Buckets K R) :
    flushLoop wr ((b0, m0) :: rest) chs =
      if wr b0 then flushLoop wr rest (chunkPut b0 (mergeChunk m0 (bucketGet chs b0)) chs)
      else (false, chs, (b0, m0) :: rest) := rfl

theorem bucketsSorted_cons (p : Nat × List (K × R)) (l : Buckets K R) :
    BucketsSorted (p :: l) ↔ (∀ q ∈ l, p.1 < q.1) ∧ BucketsSorted l :=
  List.pairwise_cons

theorem lookupA_append (l1 l2 : List (K × R)) (k : K) :
    lookupA (l1 ++ l2) k =
      match lookupA l1 k with
      | some r => some r
      | none => lookupA l2 k := by
  induction l1 with
  | nil => rfl
  | cons p l1 ih =>
    obtain ⟨k0, r0⟩ := p
    rw [List.cons_append, lookupA_cons, lookupA_cons]
    by_cases hk : k = k0
    · rw [if_pos hk, if_pos hk]
    · rw [if_neg hk, if_neg hk, ih]

theorem lookupA_dedupKeysAux (l : List (K × R)) (seen : List K) (k : K) (hk : k ∉ seen) :
    lookupA (dedupKeysAux seen l) k = lookupA l k := by
  induction l generalizing seen with
  | nil => rfl
  | cons p l ih =>
    obtain ⟨k1, r1⟩ := p
    by_cases h1 : k1 ∈ seen
    · rw [dedupKeysAux, if_pos h1, ih seen hk, lookupA_cons,
        if_neg (by intro he; rw [he] at hk; exact hk h1)]
    · rw [dedupKeysAux, if_neg h1, lookupA_cons, lookupA_cons]
      by_cases he : k = k1
      · rw [if_pos he, if_pos he]
      · rw [if_neg he, if_neg he,
          ih (k1 :: seen) (by
            intro hmem
            rcases List.mem_cons.1 hmem with h | h
            · exact he h
            · exact hk h)]

theorem lookupA_dedupKeys (l : List (K × R)) (k : K) :
    lookupA (dedupKeys l) k = lookupA l k :=
  lookupA_dedupKeysAux l [] k (List.not_mem_nil k)

theorem bucketGet_chunkPut_self (chs : Buckets K R) (b : Nat) (m : List (K × R)) :
    bucketGet (chunkPut b m chs) b = some m := by
  induction chs with
  | nil => simp [chunkPut, bucketGet]
  | cons p chs ih =>
    obtain ⟨b0, m0⟩ := p
    by_cases hb : b = b0
    · rw [chunkPut, if_pos hb, bucketGet_cons, if_pos rfl]
    · rw [chunkPut, if_neg hb, bucketGet_cons, if_neg hb, ih]

theorem bucketGet_chunkPut_ne (chs : Buckets K R) (b b2 : Nat) (m : List (K × R))
    (hb : b ≠ b2) :
    bucketGet (chunkPut b2 m chs) b = bucketGet chs b := by
  induction chs with
  | nil => simp [chunkPut, bucketGet, hb]
  | cons p chs ih =>
    obtain ⟨b0, m0⟩ := p
    by_cases h0 : b2 = b0
    · rw [chunkPut, if_pos h0, bucketGet_cons, bucketGet_cons,
        if_neg (by omega), if_neg (by omega)]
    · rw [chunkPut, if_neg h0, bucketGet_cons, bucketGet_cons]
      by_cases hbb : b = b0
      · rw [if_pos hbb, if_pos hbb]
      · rw [if_neg hbb, if_neg hbb, ih]

theorem bucketGet_none_of_forall (l : Buckets K R) (b : Nat) (h : ∀ p ∈ l, b ≠ p.1) :
    bucketGet l b = none := by
  induction l with
  | nil => rfl
  | cons p l ih =>
    obtain ⟨b0, m0⟩ := p
    rw [bucketGet_cons, if_neg (h (b0, m0) (List.mem_cons_self _ _)),
      ih (fun q hq => h q (List.mem_cons_of_mem _ hq))]

theorem bucketGet_bufInsert_self (bufs : Buckets K R) (b : Nat) (k : K) (r : R)
    (hs : BucketsSorted bufs) :
    bucketGet (bufInsert b k r bufs) b =
      some ((k, r) :: (match bucketGet bufs b with | some m => m | none => [])) := by
  induction bufs with
  | nil => simp [bufInsert, bucketGet]
  | cons p bufs ih =>
    obtain ⟨b0, m0⟩ := p
    rw [bucketsSorted_cons] at hs
    by_cases h0 : b = b0
    · rw [bufInsert, if_pos h0, bucketGet_cons, if_pos h0, bucketGet_cons, if_pos h0]
    · by_cases hlt : b < b0
      · rw [bufInsert, if_neg h0, if_pos hlt, bucketGet_cons, if_pos rfl,
          bucketGet_cons, if_neg h0,
          bucketGet_none_of_forall bufs b (fun q hq => by
            have := hs.1 q hq
            omega)]
      · rw [bufInsert, if_neg h0, if_neg hlt, bucketGet_cons, if_neg h0,
          bucketGet_cons, if_neg h0, ih hs.2]

theorem bucketGet_bufInsert_ne (bufs : Buckets K R) (b b2 : Nat) (k2 : K) (r2 : R)
    (hb : b ≠ b2) :
    bucketGet (bufInsert b2 k2 r2 bufs) b = bucketGet bufs b := by
  induction bufs with
  | nil => simp [bufInsert, bucketGet, hb]
  | cons p bufs ih =>
    obtain ⟨b0, m0⟩ := p
    by_cases h0 : b2 = b0
    · rw [bufInsert, if_pos h0, bucketGet_cons, bucketGet_cons,
        if_neg (by omega), if_neg (by omega)]
    · rw [bufInsert, if_neg h0]
      by_cases hlt : b2 < b0
      · rw [if_pos hlt, bucketGet_cons, if_neg hb, bucketGet_cons]
      · rw [if_neg hlt, bucketGet_cons, bucketGet_cons]
        by_cases hbb : b = b0
        · rw [if_pos hbb, if_pos hbb]
        · rw [if_neg hbb, if_neg hbb, ih]

theorem bufInsert_mem (bufs : Buckets K R) (b : Nat) (k : K) (r : R)
    (p : Nat × List (K × R)) (hp : p ∈ bufInsert b k r bufs) : p.1 = b ∨ p ∈ bufs := by
  induction bufs with
  | nil =>
    simp only [bufInsert, List.mem_singleton] at hp
    left
    rw [hp]
  | cons q bufs ih =>
    obtain ⟨b0, m0⟩ := q
    by_cases h0 : b = b0
    · rw [bufInsert, if_pos h0] at hp
      rcases List.mem_cons.1 hp with h | h
      · left
        rw [h, h0]
      · right
        exact List.mem_cons_of_mem _ h
    · rw [bufInsert, if_neg h0] at hp
      by_cases hlt : b < b0
      · rw [if_pos hlt] at hp
        rcases List.mem_cons.1 hp with h | h
        · left
          rw [h]
        · right
          exact h
      · rw [if_neg hlt] at hp
        rcases List.mem_cons.1 hp with h | h
        · right
          rw [h]
          exact List.mem_cons_self _ _
        · rcases ih h with h2 | h2
          · left
            exact h2
          · right
            exact List.mem_cons_of_mem _ h2

theorem bufInsert_sorted (bufs : Buckets K R) (b : Nat) (k : K) (r : R)
    (hs : BucketsSorted bufs) : BucketsSorted (bufInsert b k r bufs) := by
  induction bufs with
  | nil => simp [bufInsert, BucketsSorted]
  | cons p bufs ih =>
    obtain ⟨b0, m0⟩ := p
    rw [bucketsSorted_cons] at hs
    by_cases h0 : b = b0
    · rw [bufInsert, if_pos h0]
      rw [bucketsSorted_cons]
      exact ⟨hs.1, hs.2⟩
    · by_cases hlt : b < b0
      · rw [bufInsert, if_neg h0, if_pos hlt]
        rw [bucketsSorted_cons]
        refine ⟨?_, ?_⟩
        · intro q hq
          rcases List.mem_cons.1 hq with h | h
          · rw [h]
            exact hlt
          · have := hs.1 q h
            omega
        · rw [bucketsSorted_cons]
          exact ⟨hs.1, hs.2⟩
      · rw [bufInsert, if_neg h0, if_neg hlt]
        rw [bucketsSorted_cons]
        refine ⟨?_, ih hs.2⟩
        intro q hq
        rcases bufInsert_mem bufs b k r q hq with h | h
        · omega
        · exact hs.1 q h

end Ctsdb

namespace Ctsdb

variable {K R : Type} [DecidableEq K]

theorem flushLoop_success_buffer (wr : Nat → Bool) (bufs chs : Buckets K R)
    (h : (flushLoop wr bufs chs).1 = true) : (flushLoop wr bufs chs).2.2 = [] := by
  induction bufs generalizing chs with
  | nil => rfl
  | cons p bufs ih =>
    obtain ⟨b0, m0⟩ := p
    rw [flushLoop_cons] at h ⊢
    by_cases hw : wr b0
    · rw [if_pos hw] at h ⊢
      exact ih _ h
    · rw [if_neg hw] at h
      simp at h

theorem flushLoop_sorted (wr : Nat → Bool) (bufs chs : Buckets K R)
    (hs : BucketsSorted bufs) : BucketsSorted (flushLoop wr bufs chs).2.2 := by
  induction bufs generalizing chs with
  | nil => exact List.Pairwise.nil
  | cons p bufs ih =>
    obtain ⟨b0, m0⟩ := p
    rw [bucketsSorted_cons] at hs
    rw [flushLoop_cons]
    by_cases hw : wr b0
    · rw [if_pos hw]
      exact ih _ hs.2
    · rw [if_neg hw]
      show BucketsSorted ((b0, m0) :: bufs)
      rw [bucketsSorted_cons]
      exact hs

theorem flushLoop_view (wr : Nat → Bool) (bufs chs : Buckets K R) (b : Nat) (k : K)
    (hs : BucketsSorted bufs) :
    bkView (flushLoop wr bufs chs).2.2 (flushLoop wr bufs chs).2.1 b k
      = bkView bufs chs b k := by
  induction bufs generalizing chs with
  | nil => rfl
  | cons p bufs ih =>
    obtain ⟨b0, m0⟩ := p
    rw [bucketsSorted_cons] at hs
    rw [flushLoop_cons]
    by_cases hw : wr b0
    · rw [if_pos hw, ih _ hs.2]
      by_cases hb : b = b0
      · subst hb
        have hnone : bucketGet bufs b = none :=
          bucketGet_none_of_forall bufs b (fun q hq => by
            have := hs.1 q hq
            omega)
        simp only [bkView, bkLookup, hnone, bucketGet_cons, eq_self_iff_true, if_true,
          bucketGet_chunkPut_self, mergeChunk, lookupA_dedupKeys, lookupA_append]
        cases hm : lookupA m0 k with
        | some r => rfl
        | none =>
          cases hc : bucketGet chs b with
          | some cm => rfl
          | none => rfl
      · simp only [bkView, bkLookup, bucketGet_cons, if_neg hb,
          bucketGet_chunkPut_ne chs b b0 _ hb]
    · rw [if_neg hw]

theorem retrieve_flush (db : DB K R) (wr : Nat → Bool) (t : Nat) (k : K)
    (hs : BucketsSorted db.buffer) :
    Retrieve (Flush db wr).2 t k = Retrieve db t k := by
  unfold Retrieve Flush bucketOf
  exact flushLoop_view wr db.buffer db.chunks (t / db.bucketWidth) k hs

theorem retrieve_eq (db : DB K R) (t : Nat) (k : K) :
    Retrieve db t k = bkView db.buffer db.chunks (t / db.bucketWidth) k := rfl

theorem update_buffer (db : DB K R) (t : Nat) (k : K) (r : R) :
    (Update db t k r).buffer = bufInsert (t / db.bucketWidth) k r db.buffer := rfl

theorem update_chunks (db : DB K R) (t : Nat) (k : K) (r : R) :
    (Update db t k r).chunks = db.chunks := rfl

theorem update_width (db : DB K R) (t : Nat) (k : K) (r : R) :
    (Update db t k r).bucketWidth = db.bucketWidth := rfl

theorem bkView_insert_self (bufs chs : Buckets K R) (b : Nat) (k : K) (r : R)
    (hs : BucketsSorted bufs) :
    bkView (bufInsert b k r bufs) chs b k = some r := by
  simp only [bkView, bkLookup]
  rw [bucketGet_bufInsert_self bufs b k r hs]
  simp [lookupA_cons]

theorem bkView_insert_other (bufs chs : Buckets K R) (b b2 : Nat) (k k2 : K) (r2 : R)
    (hs : BucketsSorted bufs) (h : b ≠ b2 ∨ k ≠ k2) :
    bkView (bufInsert b2 k2 r2 bufs) chs b k = bkView bufs chs b k := by
  by_cases hb : b = b2
  · have hk : k ≠ k2 := by
      rcases h with h | h
      · exact absurd hb h
      · exact h
    subst hb
    simp only [bkView, bkLookup]
    rw [bucketGet_bufInsert_self bufs b k2 r2 hs]
    simp only [lookupA_cons, if_neg hk]
    cases hg : bucketGet bufs b with
    | some m => rfl
    | none => rfl
  · simp only [bkView, bkLookup, bucketGet_bufInsert_ne bufs b b2 k2 r2 hb]

theorem retrieve_update_self (db : DB K R) (t : Nat) (k : K) (r : R)
    (hs : BucketsSorted db.buffer) :
    Retrieve (Update db t k r) t k = some r := by
  rw [retrieve_eq, update_buffer, update_chunks, update_width]
  exact bkView_insert_self db.buffer db.chunks _ k r hs

theorem retrieve_update_other (db : DB K R) (t2 : Nat) (k2 : K) (r2 : R) (t : Nat) (k : K)
    (hs : BucketsSorted db.buffer)
    (h : touchesKey db.bucketWidth t k (Op.update t2 k2 r2) = false) :
    Retrieve (Update db t2 k2 r2) t k = Retrieve db t k := by
  have h2 : t2 / db.bucketWidth = t / db.bucketWidth → ¬k2 = k := by
    intro hb hk
    rw [touchesKey] at h
    rw [hb, hk] at h
    simp at h
  rw [retrieve_eq, retrieve_eq, update_buffer, update_chunks, update_width]
  apply bkView_insert_other db.buffer db.chunks _ _ k k2 r2 hs
  by_cases hb : t2 / db.bucketWidth = t / db.bucketWidth
  · right
    exact fun he => h2 hb he.symm
  · left
    exact fun he => hb he.symm

theorem width_applyOp (db : DB K R) (op : Op K R) :
    (applyOp db op).bucketWidth = db.bucketWidth := by
  cases op <;> rfl

theorem sorted_applyOp (db : DB K R) (op : Op K R) (hs : BucketsSorted db.buffer) :
    BucketsSorted (applyOp db op).buffer := by
  cases op with
  | update t k r => exact bufInsert_sorted db.buffer _ k r hs
  | flush wr => exact flushLoop_sorted wr db.buffer db.chunks hs

theorem retrieve_applyOp (db : DB K R) (op : Op K R) (t : Nat) (k : K) (r : R)
    (hs : BucketsSorted db.buffer)
    (hop : touchesKey db.bucketWidth t k op = false)
    (hr : Retrieve db t k = some r) :
    Retrieve (applyOp db op) t k = some r := by
  cases op with
  | update t2 k2 r2 =>
    rw [applyOp, retrieve_update_other db t2 k2 r2 t k hs hop]
    exact hr
  | flush wr =>
    rw [applyOp, retrieve_flush db wr t k hs]
    exact hr

theorem retrieve_applyOps (db : DB K R) (ops : List (Op K R)) (t : Nat) (k : K) (r : R)
    (hs : BucketsSorted db.buffer)
    (hops : ∀ op ∈ ops, touchesKey db.bucketWidth t k op = false)
    (hr : Retrieve db t k = some r) :
    Retrieve (applyOps db ops) t k = some r := by
  induction ops generalizing db with
  | nil => exact hr
  | cons op ops ih =>
    rw [applyOps, List.foldl_cons]
    have hw := width_applyOp db op
    exact ih (applyOp db op)
      (sorted_applyOp db op hs)
      (fun q hq => by rw [hw]; exact hops q (List.mem_cons_of_mem op hq))
      (retrieve_applyOp db op t k r hs (hops op (List.mem_cons_self op ops)) hr)

/-- C1: CTSDB read-your-writes — after `Update(t, k, r)`, any interleaving
of flushes and of updates that do not write the same `(bucket(t), k)` slot
leaves `Retrieve(t, k)` returning exactly `r`, whether or not a flush ran
in between. States range over reachable buffers (strictly ascending bucket
ids, as produced by `Update` and `Flush` from an empty buffer). -/
theorem ctsdb_read_your_writes (db : DB K R) (t : Nat) (k : K) (r : R)
    (ops : List (Op K R)) (hs : BucketsSorted db.buffer)
    (hops : ∀ op ∈ ops, touchesKey db.bucketWidth t k op = false) :
    Retrieve (applyOps (Update db t k r) ops) t k = some r :=
  retrieve_applyOps (Update db t k r) ops t k r
    (bufInsert_sorted db.buffer _ k r hs)
    hops
    (retrieve_update_self db t k r hs)

/-- C1 witness: update `(t = 5, k = 1, r = 42)` on an empty database,
flush, then update another key; `Retrieve 5 1` still returns 42. -/
theorem ctsdb_read_your_writes_witness :
    BucketsSorted (⟨3600, [], []⟩ : DB Nat Nat).buffer ∧
    (∀ op ∈ [Op.flush (K := Nat) (R := Nat) (fun _ => true), Op.update 9999 2 7],
      touchesKey (⟨3600, [], []⟩ : DB Nat Nat).bucketWidth 5 1 op = false) ∧
    Retrieve (applyOps (Update (⟨3600, [], []⟩ : DB Nat Nat) 5 1 42)
      [Op.flush (fun _ => true), Op.update 9999 2 7]) 5 1 = some 42 :=
  ⟨List.Pairwise.nil, by decide,
    ctsdb_read_your_writes ⟨3600, [], []⟩ 5 1 42
      [Op.flush (fun _ => true), Op.update 9999 2 7]
      List.Pairwise.nil (by decide)⟩

theorem flush_empty_fixpoint (d : DB K R) (wr2 : Nat → Bool) (hd : d.buffer = []) :
    Flush d wr2 = (true, d) := by
  obtain ⟨W, buf, chs⟩ := d
  change buf = [] at hd
  subst hd
  rfl

/-- C2: flush idempotence — when a `Flush` succeeds it drains the buffer,
so a second `Flush` (under any write oracle) leaves the on-disk chunks
and the write buffer exactly as the first left them, and returns
success. -/
theorem flush_idempotent (db : DB K R) (wr wr2 : Nat → Bool)
    (h : (Flush db wr).1 = true) :
    Flush (Flush db wr).2 wr2 = (true, (Flush db wr).2) :=
  flush_empty_fixpoint (Flush db wr).2 wr2
    (flushLoop_success_buffer wr db.buffer db.chunks h)

/-- C2 witness: a database with one buffered record; the first flush
succeeds and the second flush (even with a failing write oracle) returns
success and the same state. -/
theorem flush_idempotent_witness :
    (Flush (⟨3600, [(0, [(1, 42)])], []⟩ : DB Nat Nat) (fun _ => true)).1 = true ∧
    Flush (Flush (⟨3600, [(0, [(1, 42)])], []⟩ : DB Nat Nat) (fun _ => true)).2 (fun _ => false)
      = (true, (Flush (⟨3600, [(0, [(1, 42)])], []⟩ : DB Nat Nat) (fun _ => true)).2) :=
  ⟨by decide,
    flush_idempotent ⟨3600, [(0, [(1, 42)])], []⟩ (fun _ => true) (fun _ => false) (by decide)⟩

end Ctsdb

namespace Entry

theorem initModulesLoop_cons (env : ModEnv) (m : EModuleType) (rest : List EModuleType) :
    initModulesLoop env (m :: rest) =
      if moduleStep env m then
        ((initModulesLoop env rest).1,
          if moduleAttaches m then m :: (initModulesLoop env rest).2
          else (initModulesLoop env rest).2)
      else (false, []) := rfl

/-- C6: when the exclusive lock on `<data>/.lock` cannot be acquired, the
module loop reports failure, and every module it attached comes from the
part of the list before `LOCK` — nothing listed after `LOCK` was
instantiated or attached. -/
theorem lock_failure_aborts_modules (env : ModEnv) (pre post : List EModuleType)
    (hlock : env.lockOk = false) :
    (initModulesLoop env (pre ++ EModuleType.LOCK :: post)).1 = false ∧
    (∀ m ∈ (initModulesLoop env (pre ++ EModuleType.LOCK :: post)).2, m ∈ pre) := by
  induction pre with
  | nil =>
    rw [List.nil_append, initModulesLoop_cons]
    have hstep : moduleStep env EModuleType.LOCK = false := hlock
    rw [hstep]
    simp
  | cons m0 pre ih =>
    rw [List.cons_append, initModulesLoop_cons]
    by_cases hstep : moduleStep env m0 = true
    · rw [if_pos hstep]
      refine ⟨ih.1, ?_⟩
      intro m hm
      by_cases hatt : moduleAttaches m0 = true
      · rw [if_pos hatt] at hm
        rcases List.mem_cons.1 hm with h | h
        · rw [h]
          exact List.mem_cons_self _ _
        · exact List.mem_cons_of_mem _ (ih.2 m h)
      · rw [if_neg hatt] at hm
        exact List.mem_cons_of_mem _ (ih.2 m hm)
    · rw [if_neg hstep]
      exact ⟨rfl, by simp⟩

/-- C6 witness: with the lock refused, a list `[BLOCKMAKER, LOCK, TXPOOL]`
makes the loop fail and attach only modules before `LOCK`. -/
theorem lock_failure_aborts_modules_witness :
    (ModEnv.mk false (fun _ => true) true true).lockOk = false ∧
    ((initModulesLoop (ModEnv.mk false (fun _ => true) true true)
        ([EModuleType.BLOCKMAKER] ++ EModuleType.LOCK :: [EModuleType.TXPOOL])).1 = false ∧
      (∀ m ∈ (initModulesLoop (ModEnv.mk false (fun _ => true) true true)
        ([EModuleType.BLOCKMAKER] ++ EModuleType.LOCK :: [EModuleType.TXPOOL])).2,
        m ∈ [EModuleType.BLOCKMAKER])) :=
  ⟨rfl, lock_failure_aborts_modules (ModEnv.mk false (fun _ => true) true true)
    [EModuleType.BLOCKMAKER] [EModuleType.TXPOOL] rfl⟩

/-- C7: under the checks that precede the data-directory block passing and
the steps after it succeeding, `CBbEntry::Initialize` invokes
`create_directories` exactly when the directory does not exist, and
returns `false` — before reaching the module loop — exactly when the
directory cannot be created, the path is not a directory, or the
available disk space is below `MINIMUM_HARD_DISK_AVAILABLE` bytes. -/
theorem entryInit_data_dir_validation (env : EntryEnv)
    (hc : env.configLoadOk = true) (hh : env.fHelp = false) (hv : env.fVersion = false)
    (hp : env.fPurge = false)
    (hl1 : 1 ≤ env.nLogFileSize ∧ env.nLogFileSize ≤ 2048)
    (hl2 : 2 ≤ env.nLogHistorySize ∧ env.nLogHistorySize ≤ 0x7FFFFFFF)
    (hd : env.daemonOk = true) (hlog : env.initLogOk = true) (hdk : env.dockerInitOk = true)
    (hm : (initModulesLoop env.modEnv env.modules).1 = true) :
    ((entryInit env).createDirCalled = !env.pathExists) ∧
    ((entryInit env).ok = false ↔
      ((env.pathExists = false ∧ env.createDirOk = false) ∨ env.isDirectory = false ∨
        env.diskAvailable < MINIMUM_HARD_DISK_AVAILABLE)) ∧
    ((entryInit env).ok = false → (entryInit env).modulesReached = false) := by
  unfold entryInit
  rw [if_neg (by simp [hc]), if_neg (by simp [hh]), if_neg (by simp [hv]),
    if_neg (by simp [hp]), if_neg (by omega), if_neg (by omega)]
  cases hpe : env.pathExists <;> cases hco : env.createDirOk <;>
    cases hid : env.isDirectory <;>
    by_cases hda : env.diskAvailable < MINIMUM_HARD_DISK_AVAILABLE <;>
    simp [hpe, hco, hid, hda, hd, hlog, hdk, hm]

/-- C7 witness: a run with a missing-but-creatable directory and no free
disk space creates the directory, aborts, and never reaches the module
loop. -/
theorem entryInit_data_dir_validation_witness :
    (entryInit (EntryEnv.mk true false false false 10 10 false true true 0 false false
        true true true true (ModEnv.mk true (fun _ => true) true true) [])).createDirCalled = true ∧
    (entryInit (EntryEnv.mk true false false false 10 10 false true true 0 false false
        true true true true (ModEnv.mk true (fun _ => true) true true) [])).ok = false ∧
    (entryInit (EntryEnv.mk true false false false 10 10 false true true 0 false false
        true true true true (ModEnv.mk true (fun _ => true) true true) [])).modulesReached = false := by
  have h := entryInit_data_dir_validation
    (EntryEnv.mk true false false false 10 10 false true true 0 false false
      true true true true (ModEnv.mk true (fun _ => true) true true) [])
    rfl rfl rfl rfl (by constructor <;> norm_num) (by constructor <;> norm_num)
    rfl rfl rfl rfl
  have hok : (entryInit (EntryEnv.mk true false false false 10 10 false true true 0 false false
      true true true true (ModEnv.mk true (fun _ => true) true true) [])).ok = false :=
    h.2.1.mpr (Or.inr (Or.inr (by decide)))
  exact ⟨h.1, hok, h.2.2 hok⟩

/-- C8: `CBbEntry::AttachModule` discards the instance and returns
`false` when the instance is null or the container rejects it (duplicate
name); otherwise it returns `true` and the container retains the
instance. -/
theorem attachModule_contract (docker : List Nat) (inst : Option Nat) :
    ((inst = none ∨ ∃ nm, inst = some nm ∧ nm ∈ docker) →
      AttachModule docker inst = ⟨false, docker, true⟩) ∧
    (∀ nm, inst = some nm → nm ∉ docker →
      AttachModule docker inst = ⟨true, docker ++ [nm], false⟩ ∧
        nm ∈ (AttachModule docker inst).docker) := by
  constructor
  · rintro (h | ⟨nm, hinst, hmem⟩)
    · rw [h]
      rfl
    · rw [hinst]
      simp [AttachModule, dockerAttach, hmem]
  · intro nm hinst hmem
    rw [hinst]
    simp [AttachModule, dockerAttach, hmem]

/-- C8 witness: on the container `[1, 2]`, attaching the duplicate `2`
fails and discards, attaching null fails and discards, attaching the
fresh `3` succeeds and the container keeps it. -/
theorem attachModule_contract_witness :
    AttachModule [1, 2] (some 2) = ⟨false, [1, 2], true⟩ ∧
    AttachModule [1, 2] none = ⟨false, [1, 2], true⟩ ∧
    (AttachModule [1, 2] (some 3) = ⟨true, [1, 2, 3], false⟩ ∧
      3 ∈ (AttachModule [1, 2] (some 3)).docker) :=
  ⟨(attachModule_contract [1, 2] (some 2)).1 (Or.inr ⟨2, rfl, by decide⟩),
    (attachModule_contract [1, 2] none).1 (Or.inl rfl),
    (attachModule_contract [1, 2] (some 3)).2 3 rfl (by decide)⟩

end Entry
